import Mathlib

/-!
Verification of the animated greeting-card page (src/src/App.jsx).

The development shallowly embeds the two core utilities of the page and the
small pieces of page-level state handling:

* `useInViewStep` / `useInViewRun` — the IntersectionObserver callback of the
  `useInView` hook (App.jsx lines 62-87): a one-way boolean that is set on a
  notification whose entry is intersecting and is never reset.
* `narrativeThreshold` — the viewport-width-dependent threshold chosen by
  `NarrativeSection` (line 94).
* `handleScroll` — the scroll listener of `App` (lines 211-218) toggling the
  scroll-hint affordance at offset 100.
* `handlerBody` / `fireLoadError` — the effect of one run of the `onError`
  fallback attached to every rendered image (lines 126 and 197): assign the
  `onerror` property, then replace the source URL with a fixed placeholder.
  `reactFireLoadError` refines this with the attachment semantics of the JSX
  `onError` prop, which React wires through `addEventListener`, so the
  property assignment does not uninstall the listener.
* `denseCollageImages`, `fisherYates`, `mkPlacement`, `collagePlacements` —
  the collage generator of `DynamicCollageBackground` (lines 152-199):
  duplicate every record `duplicationFactor` times with a fresh unique key,
  shuffle in place, then draw position, rotation, size, opacity and stacking
  order per entry from `Math.random`.

Randomness is modelled by an injected random source `rs : Nat -> Rat`; each
call site of `Math.random()` in the source reads one value of the stream at a
distinct index. JavaScript numbers are modelled as rationals, and the template
string `\x7b...\x7d` interpolation of numbers as Lean `toString` on `Nat` and
`Rat`; the only fact the proofs use about that textual form is that nonnegative
numbers print without a dash, which holds for both.

Effect lifecycles (subscribe on mount, unsubscribe on unmount) are modelled by
explicit setup/cleanup functions applied in the order React applies them; the
comments on those definitions state the ordering facts of the host that the
model encodes.
-/

/-! ## Data model -/

/-- Static image record of the page (`imageDataMap` entries, App.jsx lines
6-49, with `imgUrl` added by the `collageData` map on lines 52-55). The static
content itself is out of scope; only the field layout is needed. -/
structure ImageRecord where
  filename : String
  title : String
  description : String
  aspect : String
  alt : String
  imgUrl : String
deriving DecidableEq, Repr

/-- Derivation of the public image path (App.jsx line 54). -/
def mkImgUrl (filename : String) : String :=
  "/images/" ++ filename

/-! ## ViewportRevealTracker: the useInView hook (App.jsx lines 62-87) -/

/-- One IntersectionObserver notification for the observed element. The
browser delivers `isIntersecting` together with the visible-area fraction
(the property the browser calls the intersection fraction of the entry); an
observer registered at threshold `t` reports `isIntersecting` true exactly
when the fraction has reached `t`. The hook itself reads only
`isIntersecting`. -/
structure ObserverEntry where
  isIntersecting : Bool
  visibleFraction : ℚ
deriving DecidableEq, Repr

/-- Observer callback body of `useInView` (App.jsx lines 67-72): on a
notification whose entry is intersecting, set the state to true; otherwise
leave the state unchanged. -/
def useInViewStep (inView : Bool) (e : ObserverEntry) : Bool :=
  if e.isIntersecting then true else inView

/-- State of the tracker after a sequence of notifications, starting from the
initial `useState(false)` (App.jsx line 63). -/
def useInViewRun (es : List ObserverEntry) : Bool :=
  es.foldl useInViewStep false

/-- Well-formedness of a delivered notification for an observer registered at
threshold `t`: `isIntersecting` reports whether the visible fraction reached
`t`. This is the contract of the host environment, not of the hook. -/
def entryAtThreshold (t : ℚ) (e : ObserverEntry) : Prop :=
  e.isIntersecting = decide (t ≤ e.visibleFraction)

/-! ## Tracker effect lifecycle (App.jsx lines 66-84)

The effect creates an observer, calls `observer.observe(ref.current)` when
`ref.current` is non-null, and returns a cleanup that calls
`observer.unobserve(ref.current)` when `ref.current` is non-null at the time
the cleanup runs. `trackerObserveCount` is the number of observe calls the
setup makes, given whether the ref holds an element at that moment;
`trackerEffectSetup` and `trackerEffectCleanup` apply the setup and the
cleanup to the count of active observations. -/

/-- Number of `observer.observe` calls made by the effect body (App.jsx lines
74-76): one when `ref.current` is set, none otherwise. -/
def trackerObserveCount (refCurrent : Bool) : ℕ :=
  if refCurrent then 1 else 0

/-- Effect body (App.jsx lines 66-76) acting on the count of active
observations: it observes the element currently in the ref, if any. -/
def trackerEffectSetup (refCurrent : Bool) (active : ℕ) : ℕ :=
  active + trackerObserveCount refCurrent

/-- Cleanup function (App.jsx lines 79-83) acting on the count of active
observations: it unobserves the element currently in the ref at cleanup time,
if any. The guard reads `ref.current` when the cleanup runs, not the value it
had when the effect was set up. -/
def trackerEffectCleanup (refCurrent : Bool) (active : ℕ) : ℕ :=
  active - trackerObserveCount refCurrent

/-- Active observations over the life of one tracker instance whose ref holds
an element exactly when `refAttached` is true while mounted, with `rerenders`
re-runs of the effect in between. React applies the pieces in this order:
setup at mount; cleanup followed by setup on each re-render (the element is
still mounted, so the ref still holds it); at unmount React detaches the ref
(`ref.current` becomes null) during the commit phase and only afterwards runs
the passive-effect cleanup, so the final cleanup sees `ref.current` null. -/
def trackerLifecycle (refAttached : Bool) (rerenders : ℕ) : ℕ :=
  let afterMount := trackerEffectSetup refAttached 0
  let afterRerenders :=
    Nat.rec afterMount
      (fun _ s => trackerEffectSetup refAttached (trackerEffectCleanup refAttached s))
      rerenders
  trackerEffectCleanup false afterRerenders

/-! ## NarrativeSection threshold (App.jsx line 94) -/

/-- Threshold chosen by `NarrativeSection`: 0.1 when `window.innerWidth` is
below 768 and 0.3 otherwise. -/
def narrativeThreshold (innerWidth : ℚ) : ℚ :=
  if innerWidth < 768 then 0.1 else 0.3

/-! ## Image load-failure fallback (App.jsx lines 126 and 197) -/

/-- Rendered img element state: its current source URL and whether an
`onerror` handler is installed. -/
structure ImgElement where
  src : String
  hasOnError : Bool
deriving DecidableEq, Repr

/-- Placeholder URL used by `NarrativeSection` (App.jsx line 126). -/
def narrativePlaceholderUrl : String :=
  "https://placehold.co/800x600/9ca3af/ffffff?text=Image+Missing"

/-- Placeholder URL used by `DynamicCollageBackground` (App.jsx line 197). -/
def collagePlaceholderUrl : String :=
  "https://placehold.co/300x300/1e293b/94a3b8?text=Image"

/-- Body of the `onError` handler, in source order: first the
`e.target.onerror = null` assignment, then `e.target.src` set to the
placeholder. `hasOnError` here tracks an `onerror`-property handler, the
vanilla-DOM reading of the assignment; this model is used for the behavior of
the first failure of an instance, where it agrees with the program.
`reactHandlerBody` below models the attachment the program actually has. -/
def handlerBody (placeholder : String) (el : ImgElement) : ImgElement :=
  let cleared : ImgElement := { el with hasOnError := false }
  { cleared with src := placeholder }

/-- Load failure of `el` with a property-attached handler: the handler runs
only if it is installed; with no handler the failure changes nothing. -/
def fireLoadError (placeholder : String) (el : ImgElement) : ImgElement :=
  if el.hasOnError then handlerBody placeholder el else el

/-- Initial rendered state of an image element whose source is `url`: both
render sites install the `onError` handler (App.jsx lines 119-127 and
178-198). -/
def renderImg (url : String) : ImgElement :=
  { src := url, hasOnError := true }

/-- Rendered img element under the attachment the program actually uses: the
handler is the JSX `onError` prop, which React registers on the element with
`addEventListener` (error is a non-delegated event) and keeps registered for
as long as the element is mounted. `onErrorProp` is the separate `onerror`
property of the element, the one the handler body assigns; React never reads
it. `handlerRuns` counts executions of the handler. -/
structure ReactImgElement where
  src : String
  reactOnError : Bool
  onErrorProp : Bool
  handlerRuns : ℕ
deriving DecidableEq, Repr

/-- Initial rendered state under React: listener registered, `onerror`
property unset, handler never run. -/
def renderReactImg (url : String) : ReactImgElement :=
  { src := url, reactOnError := true, onErrorProp := false, handlerRuns := 0 }

/-- Body of the handler under React semantics, in source order: the
`e.target.onerror = null` assignment clears the `onerror` property — not the
listener registration the JSX prop created — and then `e.target.src` is set
to the placeholder. -/
def reactHandlerBody (placeholder : String) (el : ReactImgElement) : ReactImgElement :=
  let cleared : ReactImgElement := { el with onErrorProp := false }
  { cleared with src := placeholder }

/-- Load failure of `el` under React semantics: the error event reaches the
still-registered listener whenever `reactOnError` holds, so the handler body
runs again on every failure. -/
def reactFireLoadError (placeholder : String) (el : ReactImgElement) : ReactImgElement :=
  if el.reactOnError then
    { reactHandlerBody placeholder el with handlerRuns := el.handlerRuns + 1 }
  else el

/-! ## App scroll listener (App.jsx lines 208-224) -/

/-- Scroll handler of `App` (lines 211-218): hide the scroll hint when
`window.scrollY` is above 100, show it when at most 100. (The
`typeof window` guards of the source are vacuous client side, where the
listener runs.) -/
def handleScroll (scrollY : ℚ) (showScrollIndicator : Bool) : Bool :=
  if scrollY > 100 then false
  else if scrollY ≤ 100 then true
  else showScrollIndicator

/-- Scroll listener registration by the mount effect (App.jsx line 222). -/
def addScrollListener (listeners : ℕ) : ℕ :=
  listeners + 1

/-- Scroll listener removal by the unmount cleanup (App.jsx line 223); the
callback identity is stable (`useCallback` with an empty dependency list), so
the removal matches the registration. -/
def removeScrollListener (listeners : ℕ) : ℕ :=
  listeners - 1

/-- Process-wide scroll listeners after the page mounts: exactly the one the
effect registers. -/
def scrollListenersAfterMount : ℕ :=
  addScrollListener 0

/-- Process-wide scroll listeners after the page unmounts. -/
def scrollListenersAfterUnmount : ℕ :=
  removeScrollListener scrollListenersAfterMount


/-! ## CollageLayoutGenerator (App.jsx lines 152-199)

`DynamicCollageBackground` expands the record list `duplicationFactor` times,
tags each copy with `uniqueKey` (template string
filename-repetition-Math.random), shuffles the expanded array in place with a
Fisher-Yates loop driven by `Math.floor(Math.random() * (i + 1))`, and renders
each entry at randomized position, rotation, size, opacity and z-index, with
animation timing derived from the entry index. -/

/-- Per-entry key of the expansion (App.jsx line 157): the template string
combines the filename, the repetition index and a fresh random draw. -/
def mkEntryKey (filename : String) (i : ℕ) (r : ℚ) : String :=
  filename ++ "-" ++ toString i ++ "-" ++ toString r

/-- Duplication factor of the collage (App.jsx line 155). -/
def duplicationFactor : ℕ := 4

/-- Element of the expanded working list: the spread of an image record plus
its `uniqueKey` tag (App.jsx line 157). -/
structure CollageEntry where
  img : ImageRecord
  uniqueKey : String
deriving DecidableEq, Repr

/-- Expansion step (App.jsx lines 156-158): for each repetition index
`i < k`, a copy of every record in order, tagged with `mkEntryKey`. The random
draw of the copy of record number `idx` in repetition `i` is stream element
`i * images.length + idx`, matching the call order of `Math.random()`. -/
def denseCollageImages (images : List ImageRecord) (k : ℕ) (rs : ℕ → ℚ) :
    List CollageEntry :=
  (List.range k).flatMap (fun i =>
    images.enum.map (fun p =>
      { img := p.2, uniqueKey := mkEntryKey p.2.filename i (rs (i * images.length + p.1)) }))

/-- In-place swap of two array cells, as the destructuring assignment on
App.jsx line 163 behaves for in-range indices: both reads happen before both
writes. Out-of-range indices leave the list unchanged (the shuffle below only
ever produces in-range indices when the random source stays in [0, 1)). -/
def listSwap {α : Type} (l : List α) (i j : ℕ) : List α :=
  match l[i]?, l[j]? with
  | some vi, some vj => (l.set i vj).set j vi
  | _, _ => l

/-- One iteration of the shuffle loop (App.jsx lines 161-164) at counter `i`:
swap cell `i` with cell `Math.floor(Math.random() * (i + 1))`. The draw of
iteration `i` is stream element `i`. -/
def fyStep {α : Type} (rs : ℕ → ℚ) (l : List α) (i : ℕ) : List α :=
  listSwap l i (⌊rs i * (i + 1)⌋).toNat

/-- The shuffle loop counting `i` down to 1 (App.jsx line 161). -/
def fyLoop {α : Type} (rs : ℕ → ℚ) : List α → ℕ → List α
  | l, 0 => l
  | l, i + 1 => fyLoop rs (fyStep rs l (i + 1)) i

/-- Fisher-Yates shuffle of the expanded list (App.jsx lines 161-164),
starting at counter `length - 1`. -/
def fisherYates {α : Type} (rs : ℕ → ℚ) (l : List α) : List α :=
  fyLoop rs l (l.length - 1)

/-- One rendered collage placement (App.jsx lines 170-196): source record and
key from the shuffled entry, randomized geometry, and index-derived animation
timing. -/
structure Placement where
  sourceImage : ImageRecord
  uniqueKey : String
  x : ℚ
  y : ℚ
  rotationDeg : ℚ
  sizeVh : ℚ
  opacity : ℚ
  zIndex : ℤ
  animationDurationSec : ℚ
  animationDelaySec : ℚ
deriving DecidableEq, Repr

/-- Placement of one shuffled entry at position `index` (App.jsx lines
170-196); `d 0 .. d 5` are the six `Math.random()` draws of this entry in
source order: x, y, rotation, size, opacity, z-index. -/
def mkPlacement (e : CollageEntry) (index : ℕ) (d : ℕ → ℚ) : Placement :=
  { sourceImage := e.img
    uniqueKey := e.uniqueKey
    x := d 0 * 100
    y := d 1 * 100
    rotationDeg := d 2 * 60 - 30
    sizeVh := 30 + d 3 * 50
    opacity := 0.6 + d 4 * 0.4
    zIndex := ⌊d 5 * 10⌋
    animationDurationSec := 30 + index * 2
    animationDelaySec := index * 1.5 }

/-- Full collage pipeline for duplication factor `k`: expand, shuffle, place.
The three phases read disjoint segments of the injected random stream; the
expansion uses elements below `n * k`, the shuffle the next segment, and the
placement of entry `idx` elements `2 * (n * k) + 6 * idx` onward. -/
def collagePlacements (images : List ImageRecord) (k : ℕ) (rs : ℕ → ℚ) :
    List Placement :=
  let n := images.length
  let dense := denseCollageImages images k rs
  let shuffled := fisherYates (fun t => rs (n * k + t)) dense
  shuffled.enum.map (fun p =>
    mkPlacement p.2 p.1 (fun c => rs (2 * (n * k) + 6 * p.1 + c)))

/-- The pipeline as `DynamicCollageBackground` runs it, with the fixed
duplication factor 4. -/
def appCollagePlacements (images : List ImageRecord) (rs : ℕ → ℚ) : List Placement :=
  collagePlacements images duplicationFactor rs

/-! ## Rendered collage state for the load-failure claims -/

/-- Rendered state of the collage: the placement list produced at mount and
the img elements rendered from it. The error handler touches only the
elements; the placement list is never recomputed (App.jsx lines 166-202). -/
structure CollageView where
  placements : List Placement
  elements : List ImgElement
deriving Repr

/-- Initial render of a placement list: one img element per placement, source
set to the record URL, error handler installed (App.jsx lines 178-198). -/
def renderCollage (ps : List Placement) : CollageView :=
  { placements := ps, elements := ps.map (fun p => renderImg p.sourceImage.imgUrl) }

/-- Neutral element used only as the out-of-range default of `List.getD`. -/
def fallbackImgElement : ImgElement :=
  { src := "", hasOnError := false }

/-- Neutral record used only to build `fallbackPlacement`. -/
def fallbackImageRecord : ImageRecord :=
  { filename := "", title := "", description := "", aspect := "", alt := "",
    imgUrl := "" }

/-- Neutral placement used only as the out-of-range default of `List.getD`. -/
def fallbackPlacement : Placement :=
  mkPlacement { img := fallbackImageRecord, uniqueKey := "" } 0 (fun _ => 0)

/-- Load failure of the collage instance at position `i`: its `onError`
handler (App.jsx line 197) runs on that element alone; nothing else of the
view changes. -/
def collageFailAt (v : CollageView) (i : ℕ) : CollageView :=
  { placements := v.placements,
    elements := v.elements.set i
      (fireLoadError collagePlaceholderUrl (v.elements.getD i fallbackImgElement)) }

/-! ## Concrete inputs for the witnesses -/

/-- Record with filename a.png, as in the two-record scenario of the spec. -/
def demoImageA : ImageRecord :=
  { filename := "a.png", title := "A", description := "", aspect := "square",
    alt := "a", imgUrl := mkImgUrl ("a.png") }

/-- Record with filename b.png, as in the two-record scenario of the spec. -/
def demoImageB : ImageRecord :=
  { filename := "b.png", title := "B", description := "", aspect := "portrait",
    alt := "b", imgUrl := mkImgUrl ("b.png") }

/-- The two-record input list of the scenario in the spec. -/
def demoImages : List ImageRecord := [demoImageA, demoImageB]

/-- Constant random source with every draw 1/2, inside [0, 1). -/
def demoRs : ℕ → ℚ := fun _ => 1/2

/-- Collage placement list of the two-record scenario, read through
`List.getD`. -/
def demoPlacement : Placement :=
  (collagePlacements demoImages 4 demoRs).getD 0 fallbackPlacement

/-- Entry at position 1 of the shuffled placement list of the scenario. -/
def demoPlacement1 : Placement :=
  (appCollagePlacements demoImages demoRs).getD 1 fallbackPlacement

/-- Two concrete placements used to exercise the load-failure claims. -/
def demoViewPlacements : List Placement :=
  [mkPlacement { img := demoImageA, uniqueKey := "a.png-0-1/2" } 0 (fun _ => 0),
    mkPlacement { img := demoImageB, uniqueKey := "b.png-0-1/2" } 1 (fun _ => 0)]

/-! ## Theorems -/

/-! ### Helper lemmas: decimal printing never produces a dash -/

lemma digitChar_ne_dash (n : ℕ) : Nat.digitChar n ≠ '-' := by
  by_cases h : n < 16
  · exact (by decide : ∀ m : ℕ, m < 16 → Nat.digitChar m ≠ '-') n h
  · have hstar : Nat.digitChar n = '*' := by
      unfold Nat.digitChar
      rw [if_neg (by omega : ¬ n = 0)]
      rw [if_neg (by omega : ¬ n = 1)]
      rw [if_neg (by omega : ¬ n = 2)]
      rw [if_neg (by omega : ¬ n = 3)]
      rw [if_neg (by omega : ¬ n = 4)]
      rw [if_neg (by omega : ¬ n = 5)]
      rw [if_neg (by omega : ¬ n = 6)]
      rw [if_neg (by omega : ¬ n = 7)]
      rw [if_neg (by omega : ¬ n = 8)]
      rw [if_neg (by omega : ¬ n = 9)]
      rw [if_neg (by omega : ¬ n = 10)]
      rw [if_neg (by omega : ¬ n = 11)]
      rw [if_neg (by omega : ¬ n = 12)]
      rw [if_neg (by omega : ¬ n = 13)]
      rw [if_neg (by omega : ¬ n = 14)]
      rw [if_neg (by omega : ¬ n = 15)]
    rw [hstar]
    decide

lemma toDigitsCore_no_dash (b : ℕ) :
    ∀ (fuel n : ℕ) (acc : List Char), '-' ∉ acc → '-' ∉ Nat.toDigitsCore b fuel n acc := by
  intro fuel
  induction fuel with
  | zero => intro n acc hacc; simpa [Nat.toDigitsCore] using hacc
  | succ fuel ih =>
      intro n acc hacc
      rw [Nat.toDigitsCore]
      split
      · intro hmem
        rcases List.mem_cons.mp hmem with h | h
        · exact digitChar_ne_dash _ h.symm
        · exact hacc h
      · refine ih _ _ ?_
        intro hmem
        rcases List.mem_cons.mp hmem with h | h
        · exact digitChar_ne_dash _ h.symm
        · exact hacc h

lemma natRepr_no_dash (n : ℕ) : '-' ∉ (Nat.repr n).data := by
  show '-' ∉ (Nat.toDigits 10 n).asString.data
  have : (Nat.toDigits 10 n).asString.data = Nat.toDigits 10 n := rfl
  rw [this]
  exact toDigitsCore_no_dash 10 (n+1) n [] (by simp)

lemma natToString_no_dash (n : ℕ) : '-' ∉ (toString n).data := natRepr_no_dash n

lemma intToString_no_dash (i : ℤ) (h : 0 ≤ i) : '-' ∉ (toString i).data := by
  obtain ⟨m, rfl⟩ := Int.eq_ofNat_of_zero_le h
  show '-' ∉ (toString m).data
  exact natToString_no_dash m

lemma ratToString_no_dash (q : ℚ) (h : 0 ≤ q) : '-' ∉ (toString q).data := by
  have hnum : 0 ≤ q.num := Rat.num_nonneg.mpr h
  have hrepr : toString q =
      if q.den = 1 then toString q.num
      else toString "" ++ toString q.num ++ toString "/" ++ toString q.den ++ toString "" := rfl
  rw [hrepr]
  split
  · exact intToString_no_dash _ hnum
  · intro hmem
    simp only [String.data_append, List.mem_append] at hmem
    rcases hmem with ((((h1 | h2) | h3) | h4) | h5)
    · exact absurd h1 (by decide)
    · exact intToString_no_dash _ hnum h2
    · exact absurd h3 (by decide)
    · exact natToString_no_dash _ h4
    · exact absurd h5 (by decide)

/-! ### Helper lemmas: the filename-i-random key determines its components -/

lemma no_dash_cons_cancel :
    ∀ (a b u v : List Char), '-' ∉ a → '-' ∉ b →
      a ++ '-' :: u = b ++ '-' :: v → a = b ∧ u = v := by
  intro a
  induction a with
  | nil =>
      intro b u v _ hb h
      cases b with
      | nil => simpa using h
      | cons c bs =>
          simp only [List.nil_append, List.cons_append, List.cons.injEq] at h
          exact absurd (by simp [← h.1] : '-' ∈ c :: bs) hb
  | cons c as ih =>
      intro b u v ha hb h
      cases b with
      | nil =>
          simp only [List.cons_append, List.nil_append, List.cons.injEq] at h
          exact absurd (by simp [h.1] : '-' ∈ c :: as) ha
      | cons d bs =>
          simp only [List.cons_append, List.cons.injEq] at h
          obtain ⟨rfl, h2⟩ := h
          have := ih bs u v (fun hm => ha (List.mem_cons_of_mem _ hm))
            (fun hm => hb (List.mem_cons_of_mem _ hm)) h2
          exact ⟨by rw [this.1], this.2⟩

lemma no_dash_cons_cancel_right
    (a b u v : List Char) (hu : '-' ∉ u) (hv : '-' ∉ v)
    (h : a ++ '-' :: u = b ++ '-' :: v) : a = b ∧ u = v := by
  have hrev : u.reverse ++ '-' :: a.reverse = v.reverse ++ '-' :: b.reverse := by
    have := congrArg List.reverse h
    simpa [List.reverse_append, List.append_assoc] using this
  have := no_dash_cons_cancel u.reverse v.reverse a.reverse b.reverse
    (by simpa using hu) (by simpa using hv) hrev
  exact ⟨List.reverse_injective this.2, List.reverse_injective this.1⟩

lemma mkEntryKey_inj (f1 f2 : String) (i1 i2 : ℕ) (r1 r2 : ℚ)
    (hi1 : '-' ∉ (toString i1).data) (hi2 : '-' ∉ (toString i2).data)
    (hr1 : '-' ∉ (toString r1).data) (hr2 : '-' ∉ (toString r2).data)
    (h : mkEntryKey f1 i1 r1 = mkEntryKey f2 i2 r2) :
    f1 = f2 ∧ toString i1 = toString i2 ∧ toString r1 = toString r2 := by
  have hd : (f1.data ++ '-' :: (toString i1).data) ++ '-' :: (toString r1).data =
      (f2.data ++ '-' :: (toString i2).data) ++ '-' :: (toString r2).data := by
    have := congrArg String.data h
    simpa [mkEntryKey, String.data_append] using this
  have h1 := no_dash_cons_cancel_right _ _ _ _ hr1 hr2 hd
  have h2 := no_dash_cons_cancel_right _ _ _ _ hi1 hi2 h1.1
  exact ⟨String.ext h2.1, String.ext h2.2, String.ext h1.2⟩

/-! ### Helper lemmas: the Fisher-Yates loop permutes the list -/

lemma listSwap_length {α : Type} (l : List α) (i j : ℕ) :
    (listSwap l i j).length = l.length := by
  unfold listSwap
  split <;> simp_all

lemma fyStep_length {α : Type} (rs : ℕ → ℚ) (l : List α) (i : ℕ) :
    (fyStep rs l i).length = l.length := listSwap_length _ _ _

lemma fyLoop_length {α : Type} (rs : ℕ → ℚ) :
    ∀ (i : ℕ) (l : List α), (fyLoop rs l i).length = l.length := by
  intro i
  induction i with
  | zero => intro l; rfl
  | succ i ih => intro l; rw [fyLoop, ih, fyStep_length]

lemma fisherYates_length {α : Type} (rs : ℕ → ℚ) (l : List α) :
    (fisherYates rs l).length = l.length := fyLoop_length rs _ l

lemma count_set_add {α : Type} [DecidableEq α] :
    ∀ (l : List α) (i : ℕ) (b x : α) (h : i < l.length),
      (l.set i b).count x + (if l[i] = x then 1 else 0) =
        l.count x + (if b = x then 1 else 0) := by
  intro l
  induction l with
  | nil => intro i b x h; simp at h
  | cons a l ih =>
      intro i b x h
      cases i with
      | zero =>
          simp only [List.set_cons_zero, List.getElem_cons_zero, List.count_cons,
            beq_iff_eq]
          split_ifs <;> omega
      | succ i =>
          have hi : i < l.length := by simpa using h
          have hI := ih i b x hi
          simp only [List.set_cons_succ, List.getElem_cons_succ, List.count_cons,
            beq_iff_eq]
          split_ifs at hI ⊢ <;> omega

lemma listSwap_count {α : Type} [DecidableEq α] (l : List α) (i j : ℕ)
    (hi : i < l.length) (hj : j < l.length) (x : α) :
    (listSwap l i j).count x = l.count x := by
  unfold listSwap
  rw [List.getElem?_eq_getElem hi, List.getElem?_eq_getElem hj]
  show ((l.set i (l[j])).set j (l[i])).count x = l.count x
  have hj2 : j < (l.set i (l[j])).length := by simpa using hj
  have e1 := count_set_add l i (l[j]) x hi
  have e2 := count_set_add (l.set i (l[j])) j (l[i]) x hj2
  have e3 : (l.set i (l[j]))[j] = l[j] := by
    simp only [List.getElem_set]
    split <;> rfl
  rw [e3] at e2
  split_ifs at e1 e2 <;> omega

lemma fyStep_count {α : Type} [DecidableEq α] (rs : ℕ → ℚ)
    (hrs : ∀ n, 0 ≤ rs n ∧ rs n < 1) (l : List α) (i : ℕ) (hi : i < l.length) (x : α) :
    (fyStep rs l i).count x = l.count x := by
  have h0 : (0:ℚ) ≤ rs i * (i + 1) :=
    mul_nonneg (hrs i).1 (by positivity)
  have h1 : rs i * (i + 1) < (i : ℚ) + 1 := by
    calc rs i * (i + 1) < 1 * ((i : ℚ) + 1) :=
          mul_lt_mul_of_pos_right (hrs i).2 (by positivity)
      _ = (i : ℚ) + 1 := one_mul _
  have hfl : (0:ℤ) ≤ ⌊rs i * (i + 1)⌋ := Int.floor_nonneg.mpr h0
  have hfu : ⌊rs i * (i + 1)⌋ < (i : ℤ) + 1 := Int.floor_lt.mpr (by push_cast; linarith)
  have hj : (⌊rs i * (i + 1)⌋).toNat < l.length := by omega
  exact listSwap_count l i _ hi hj x

lemma fyLoop_count {α : Type} [DecidableEq α] (rs : ℕ → ℚ)
    (hrs : ∀ n, 0 ≤ rs n ∧ rs n < 1) :
    ∀ (i : ℕ) (l : List α), i < l.length → ∀ x, (fyLoop rs l i).count x = l.count x := by
  intro i
  induction i with
  | zero => intro l _ x; rfl
  | succ i ih =>
      intro l h x
      rw [fyLoop]
      have hlen : (fyStep rs l (i + 1)).length = l.length := fyStep_length rs l (i + 1)
      rw [ih (fyStep rs l (i + 1)) (by omega) x]
      exact fyStep_count rs hrs l (i + 1) h x

lemma fisherYates_perm {α : Type} [DecidableEq α] (rs : ℕ → ℚ)
    (hrs : ∀ n, 0 ≤ rs n ∧ rs n < 1) (l : List α) :
    (fisherYates rs l).Perm l := by
  rcases Nat.eq_zero_or_pos l.length with h | h
  · have : l = [] := List.length_eq_zero.mp h
    subst this
    exact List.Perm.refl _
  · exact List.perm_iff_count.mpr
      (fun x => fyLoop_count rs hrs (l.length - 1) l (by omega) x)

/-! ### Helper lemmas: the expanded list and the placement pipeline -/

lemma dense_length (images : List ImageRecord) (k : ℕ) (rs : ℕ → ℚ) :
    (denseCollageImages images k rs).length = k * images.length := by
  unfold denseCollageImages
  induction k with
  | zero => simp
  | succ k ih =>
      rw [List.range_succ, List.flatMap_append, List.length_append, ih]
      simp [List.enum_length, Nat.succ_mul]

lemma dense_countP (images : List ImageRecord) (k : ℕ) (rs : ℕ → ℚ) (f : String) :
    (denseCollageImages images k rs).countP (fun e => e.img.filename == f) =
      k * images.countP (fun r => r.filename == f) := by
  unfold denseCollageImages
  induction k with
  | zero => simp
  | succ k ih =>
      rw [List.range_succ, List.flatMap_append, List.countP_append, ih]
      have hblock : ∀ i : ℕ,
          (images.enum.map (fun p =>
            ({ img := p.2, uniqueKey := mkEntryKey p.2.filename i (rs (i * images.length + p.1)) } : CollageEntry))).countP
              (fun e => e.img.filename == f) =
            images.countP (fun r => r.filename == f) := by
        intro i
        rw [List.countP_map]
        have : ((fun (e : CollageEntry) => e.img.filename == f) ∘
            (fun (p : ℕ × ImageRecord) =>
              ({ img := p.2, uniqueKey := mkEntryKey p.2.filename i (rs (i * images.length + p.1)) } : CollageEntry))) =
            ((fun (r : ImageRecord) => r.filename == f) ∘ Prod.snd) := rfl
        rw [this, ← List.countP_map, List.enum_map_snd]
      simp only [List.flatMap_cons, List.flatMap_nil, List.append_nil, List.countP_append]
      rw [hblock k, Nat.succ_mul]

lemma enum_nodup {α : Type} (l : List α) : l.enum.Nodup := by
  have := List.enum_map_fst l
  exact List.Nodup.of_map Prod.fst (this ▸ List.nodup_range l.length)

lemma dense_keys_nodup (images : List ImageRecord) (rs : ℕ → ℚ)
    (hrs : ∀ n, 0 ≤ rs n ∧ rs n < 1)
    (hnd : (images.map ImageRecord.filename).Nodup) :
    ((denseCollageImages images 4 rs).map CollageEntry.uniqueKey).Nodup := by
  have hdash4 : ∀ i ∈ List.range 4, '-' ∉ (toString i).data := by decide
  have hinj4 : ∀ i ∈ List.range 4, ∀ j ∈ List.range 4, toString i = toString j → i = j := by
    decide
  unfold denseCollageImages
  rw [List.map_flatMap]
  rw [List.nodup_flatMap]
  constructor
  · intro i hi
    rw [List.map_map]
    apply List.Nodup.map_on _ (enum_nodup images)
    intro p hp q hq hkey
    obtain ⟨pi, pimg⟩ := p
    obtain ⟨qi, qimg⟩ := q
    simp only [Function.comp] at hkey
    have hout := mkEntryKey_inj _ _ _ _ _ _
      (hdash4 i hi) (hdash4 i hi)
      (ratToString_no_dash _ (hrs (i * images.length + pi)).1)
      (ratToString_no_dash _ (hrs (i * images.length + qi)).1)
      hkey
    obtain ⟨hp1, hp2⟩ := List.mem_enum hp
    obtain ⟨hq1, hq2⟩ := List.mem_enum hq
    have hplen : pi < (images.map ImageRecord.filename).length := by simpa using hp1
    have hqlen : qi < (images.map ImageRecord.filename).length := by simpa using hq1
    have hfn : (images.map ImageRecord.filename)[pi] =
        (images.map ImageRecord.filename)[qi] := by
      simp only [List.getElem_map]
      rw [← hp2, ← hq2]
      exact hout.1
    have hidx : pi = qi := (List.Nodup.getElem_inj_iff hnd).mp hfn
    subst hidx
    rw [hp2, hq2]
  · apply List.Pairwise.imp_of_mem ?_
      ((List.nodup_range 4) : List.Pairwise (fun a b => a ≠ b) (List.range 4))
    intro i j hi hj hne
    intro key hki hkj
    simp only [List.map_map, List.mem_map, Function.comp] at hki hkj
    obtain ⟨p, hp, hkeyi⟩ := hki
    obtain ⟨q, hq, hkeyj⟩ := hkj
    have := mkEntryKey_inj _ _ _ _ _ _
      (hdash4 i hi) (hdash4 j hj)
      (ratToString_no_dash _ (hrs (i * images.length + p.1)).1)
      (ratToString_no_dash _ (hrs (j * images.length + q.1)).1)
      (hkeyi.trans hkeyj.symm)
    exact hne (hinj4 i hi j hj this.2.1)

lemma collagePlacements_length (images : List ImageRecord) (k : ℕ) (rs : ℕ → ℚ) :
    (collagePlacements images k rs).length = images.length * k := by
  unfold collagePlacements
  rw [List.length_map, List.enum_length, fisherYates_length, dense_length, Nat.mul_comm]

lemma collagePlacements_keys (images : List ImageRecord) (k : ℕ) (rs : ℕ → ℚ) :
    (collagePlacements images k rs).map Placement.uniqueKey =
      (fisherYates (fun t => rs (images.length * k + t))
        (denseCollageImages images k rs)).map CollageEntry.uniqueKey := by
  unfold collagePlacements
  rw [List.map_map]
  have : (Placement.uniqueKey ∘ fun p : ℕ × CollageEntry =>
      mkPlacement p.2 p.1 (fun c => rs (2 * (images.length * k) + 6 * p.1 + c))) =
      (CollageEntry.uniqueKey ∘ Prod.snd) := rfl
  rw [this, ← List.map_map, List.enum_map_snd]

lemma appCollagePlacements_keys_nodup (images : List ImageRecord) (rs : ℕ → ℚ)
    (hrs : ∀ n, 0 ≤ rs n ∧ rs n < 1)
    (hnd : (images.map ImageRecord.filename).Nodup) :
    ((appCollagePlacements images rs).map Placement.uniqueKey).Nodup := by
  unfold appCollagePlacements duplicationFactor
  rw [collagePlacements_keys]
  have hperm := (fisherYates_perm (fun t => rs (images.length * 4 + t))
    (fun t => hrs _) (denseCollageImages images 4 rs)).map CollageEntry.uniqueKey
  rw [List.Perm.nodup_iff hperm]
  exact dense_keys_nodup images rs hrs hnd

lemma collagePlacements_countP (images : List ImageRecord) (k : ℕ) (rs : ℕ → ℚ)
    (hrs : ∀ n, 0 ≤ rs n ∧ rs n < 1) (f : String) :
    (collagePlacements images k rs).countP (fun p => p.sourceImage.filename == f) =
      k * images.countP (fun r => r.filename == f) := by
  unfold collagePlacements
  rw [List.countP_map]
  have : ((fun p : Placement => p.sourceImage.filename == f) ∘
      (fun p : ℕ × CollageEntry =>
        mkPlacement p.2 p.1 (fun c => rs (2 * (images.length * k) + 6 * p.1 + c)))) =
      ((fun e : CollageEntry => e.img.filename == f) ∘ Prod.snd) := rfl
  rw [this, ← List.countP_map, List.enum_map_snd]
  rw [List.Perm.countP_eq _ (fisherYates_perm _ (fun t => hrs _) _)]
  exact dense_countP images k rs f

lemma countP_filename_eq_one (images : List ImageRecord)
    (hnd : (images.map ImageRecord.filename).Nodup)
    (img : ImageRecord) (hmem : img ∈ images) :
    images.countP (fun r => r.filename == img.filename) = 1 := by
  have h1 : images.countP (fun r => r.filename == img.filename) =
      (images.map ImageRecord.filename).countP (fun x => x == img.filename) := by
    rw [List.countP_map]
    rfl
  have h2 : (images.map ImageRecord.filename).countP (fun x => x == img.filename) =
      (images.map ImageRecord.filename).count img.filename := rfl
  rw [h1, h2]
  exact List.count_eq_one_of_mem hnd (List.mem_map_of_mem _ hmem)

lemma mkPlacement_bounds (e : CollageEntry) (index : ℕ) (d : ℕ → ℚ)
    (hd : ∀ c, 0 ≤ d c ∧ d c < 1) :
    (0 ≤ (mkPlacement e index d).x ∧ (mkPlacement e index d).x ≤ 100) ∧
    (0 ≤ (mkPlacement e index d).y ∧ (mkPlacement e index d).y ≤ 100) ∧
    (-30 ≤ (mkPlacement e index d).rotationDeg ∧ (mkPlacement e index d).rotationDeg ≤ 30) ∧
    (30 ≤ (mkPlacement e index d).sizeVh ∧ (mkPlacement e index d).sizeVh ≤ 80) ∧
    (0.6 ≤ (mkPlacement e index d).opacity ∧ (mkPlacement e index d).opacity ≤ 1) ∧
    (0 ≤ (mkPlacement e index d).zIndex ∧ (mkPlacement e index d).zIndex ≤ 9) := by
  unfold mkPlacement
  simp only
  obtain ⟨h00, h01⟩ := hd 0
  obtain ⟨h10, h11⟩ := hd 1
  obtain ⟨h20, h21⟩ := hd 2
  obtain ⟨h30, h31⟩ := hd 3
  obtain ⟨h40, h41⟩ := hd 4
  obtain ⟨h50, h51⟩ := hd 5
  refine ⟨⟨by positivity, by nlinarith⟩, ⟨by positivity, by nlinarith⟩,
    ⟨by nlinarith, by nlinarith⟩, ⟨by nlinarith, by nlinarith⟩,
    ⟨by nlinarith, by nlinarith⟩, ?_, ?_⟩
  · exact Int.floor_nonneg.mpr (by positivity)
  · have : ⌊d 5 * 10⌋ < 10 := Int.floor_lt.mpr (by push_cast; nlinarith)
    omega

lemma collagePlacements_anim (images : List ImageRecord) (k : ℕ) (rs : ℕ → ℚ)
    (i : ℕ) (hi : i < (collagePlacements images k rs).length) :
    ((collagePlacements images k rs).get ⟨i, hi⟩).animationDelaySec = (i : ℚ) * 1.5 ∧
      ((collagePlacements images k rs).get ⟨i, hi⟩).animationDurationSec = 30 + (i : ℚ) * 2 := by
  unfold collagePlacements at hi ⊢
  simp only [List.get_eq_getElem, List.getElem_map, List.getElem_enum]
  exact ⟨rfl, rfl⟩


/-- C1: for every threshold t in [0, 1] and every notification sequence
delivered at that threshold, once one notification reports the visible
fraction at or above t (is intersecting), the tracker output is true after
every further prefix of the sequence, whatever the later notifications
report; and from a true state no notification sequence ever brings the
output back to false. -/
theorem useInView_latches (t : ℚ) (ht : 0 ≤ t ∧ t ≤ 1)
    (es1 : List ObserverEntry)
    (hwf : ∀ e ∈ es1, entryAtThreshold t e)
    (hq : ∃ e ∈ es1, t ≤ e.visibleFraction) :
    (∀ es2 : List ObserverEntry, useInViewRun (es1 ++ es2) = true) ∧
      (∀ es : List ObserverEntry, es.foldl useInViewStep true = true) := by
  have htrue : ∀ es : List ObserverEntry, es.foldl useInViewStep true = true := by
    intro es
    induction es with
    | nil => rfl
    | cons e es ih =>
        have hstep : useInViewStep true e = true := by
          unfold useInViewStep
          split <;> rfl
        simpa [List.foldl_cons, hstep] using ih
  refine ⟨?_, htrue⟩
  intro es2
  have h1 : es1.foldl useInViewStep false = true := by
    clear ht
    induction es1 with
    | nil => simp at hq
    | cons e es ih =>
        rcases hq with ⟨e', he', hfrac⟩
        rcases List.mem_cons.mp he' with rfl | hmem
        · have : e'.isIntersecting = true := by
            have := hwf e' (List.mem_cons_self _ _)
            unfold entryAtThreshold at this
            simpa [this] using hfrac
          simp only [List.foldl_cons, useInViewStep, this, if_true]
          exact htrue es
        · by_cases hi : e.isIntersecting = true
          · simp only [List.foldl_cons, useInViewStep, hi, if_true]
            exact htrue es
          · have hstep : useInViewStep false e = false := by
              unfold useInViewStep
              simp [hi]
            rw [List.foldl_cons, hstep]
            exact ih (fun x hx => hwf x (List.mem_cons_of_mem _ hx)) ⟨e', hmem, hfrac⟩
  unfold useInViewRun
  rw [List.foldl_append, h1]
  exact htrue es2

/-- Witness for C1 at threshold 0.3: a notification at fraction 0.5 latches
the output, and a later non-intersecting notification at fraction 0 leaves it
true. -/
theorem useInView_latches_witness :
    useInViewRun
        ([{ isIntersecting := true, visibleFraction := 1/2 }] ++
          [{ isIntersecting := false, visibleFraction := 0 }]) = true := by
  exact
    (useInView_latches (3/10) (by norm_num)
        [{ isIntersecting := true, visibleFraction := 1/2 }]
        (by
          intro e he
          simp only [List.mem_singleton] at he
          subst he
          unfold entryAtThreshold
          norm_num)
        ⟨{ isIntersecting := true, visibleFraction := 1/2 },
          List.mem_singleton.mpr rfl, by norm_num⟩).1
      [{ isIntersecting := false, visibleFraction := 0 }]

/-- C4: the tracker output is false at creation, and stays false after any
notification sequence in which no notification reports the element as
intersecting. -/
theorem useInView_initially_false_and_stays_false
    (es : List ObserverEntry) (h : ∀ e ∈ es, e.isIntersecting = false) :
    useInViewRun [] = false ∧ useInViewRun es = false := by
  refine ⟨rfl, ?_⟩
  unfold useInViewRun
  induction es with
  | nil => rfl
  | cons e es ih =>
      have he : e.isIntersecting = false := h e (List.mem_cons_self _ _)
      have hstep : useInViewStep false e = false := by
        unfold useInViewStep
        simp [he]
      rw [List.foldl_cons, hstep]
      exact ih (fun x hx => h x (List.mem_cons_of_mem _ hx))

/-- Witness for C4: two non-intersecting notifications leave the output
false. -/
theorem useInView_initially_false_and_stays_false_witness :
    useInViewRun [] = false ∧
      useInViewRun
        [{ isIntersecting := false, visibleFraction := 1/5 },
          { isIntersecting := false, visibleFraction := 0 }] = false := by
  exact useInView_initially_false_and_stays_false
    [{ isIntersecting := false, visibleFraction := 1/5 },
      { isIntersecting := false, visibleFraction := 0 }]
    (by intro e he; fin_cases he <;> rfl)

/-- C7: the threshold passed to the tracker of a narrative section is 0.1
when the viewport is narrower than 768 logical pixels and 0.3 otherwise. -/
theorem narrativeThreshold_by_viewport (w : ℚ) :
    (w < 768 → narrativeThreshold w = 0.1) ∧
      (768 ≤ w → narrativeThreshold w = 0.3) := by
  constructor
  · intro h
    unfold narrativeThreshold
    simp [h]
  · intro h
    unfold narrativeThreshold
    rw [if_neg (by exact not_lt.mpr h)]

/-- Witness for C7 at widths 500 and 800. -/
theorem narrativeThreshold_by_viewport_witness :
    narrativeThreshold 500 = 0.1 ∧ narrativeThreshold 800 = 0.3 := by
  exact ⟨(narrativeThreshold_by_viewport 500).1 (by norm_num),
    (narrativeThreshold_by_viewport 800).2 (by norm_num)⟩

/-- C9: the page registers a single scroll listener at mount and removes it
at unmount, and after any scroll notification the hint is visible exactly
when the scroll offset is at most 100 units, whatever the previous state. -/
theorem scroll_hint_threshold :
    (∀ (y : ℚ) (s : Bool), handleScroll y s = decide (y ≤ 100)) ∧
      scrollListenersAfterMount = 1 ∧ scrollListenersAfterUnmount = 0 := by
  refine ⟨?_, rfl, rfl⟩
  intro y s
  unfold handleScroll
  rcases le_or_lt y 100 with h | h
  · rw [if_neg (by exact not_lt.mpr h), if_pos h]
    simp [h]
  · rw [if_pos h]
    simp [not_le.mpr h]

/-- C10: evaluation of the load-failure path at the failing input, under the
attachment the program actually has. The claim that the fallback applies at
most once fails on the code: after the first failure the `onerror` property
has been assigned (to null) and the source is the placeholder, but the JSX
`onError` listener is still registered, so a second failure — in particular
the placeholder itself failing to load — runs the handler again and assigns
the source again, re-triggering the load: the retry loop the claim denies. -/
theorem onError_refires_after_placeholder_failure (url : String) :
    (reactFireLoadError collagePlaceholderUrl (renderReactImg url)).src =
        collagePlaceholderUrl ∧
    (reactFireLoadError collagePlaceholderUrl (renderReactImg url)).onErrorProp = false ∧
    (reactFireLoadError collagePlaceholderUrl (renderReactImg url)).reactOnError = true ∧
    (reactFireLoadError collagePlaceholderUrl
        (reactFireLoadError collagePlaceholderUrl (renderReactImg url))).handlerRuns = 2 := by
  exact ⟨rfl, rfl, rfl, rfl⟩

/-- C2: for every input list with pairwise-distinct filenames and the fixed
duplication factor 4, the generated placement list has exactly length * 4
entries, all instance keys are pairwise distinct, and every input record is
the source of exactly 4 placements, for every random source with draws in
[0, 1). -/
theorem collage_expansion_counts (images : List ImageRecord) (rs : ℕ → ℚ)
    (hrs : ∀ n, 0 ≤ rs n ∧ rs n < 1)
    (hnd : (images.map ImageRecord.filename).Nodup) :
    (appCollagePlacements images rs).length = images.length * 4 ∧
    ((appCollagePlacements images rs).map Placement.uniqueKey).Nodup ∧
    ∀ img ∈ images,
      (appCollagePlacements images rs).countP
        (fun p => p.sourceImage.filename == img.filename) = 4 := by
  refine ⟨?_, appCollagePlacements_keys_nodup images rs hrs hnd, ?_⟩
  · unfold appCollagePlacements duplicationFactor
    exact collagePlacements_length images 4 rs
  · intro img hmem
    unfold appCollagePlacements duplicationFactor
    rw [collagePlacements_countP images 4 rs hrs, countP_filename_eq_one images hnd img hmem]

/-- Witness for C2 on the scenario of the spec: records a.png and b.png,
factor 4, a constant random source: 8 placements, distinct keys, 4 sourced
from each record. -/
theorem collage_expansion_counts_witness :
    (appCollagePlacements demoImages demoRs).length = 8 ∧
    ((appCollagePlacements demoImages demoRs).map Placement.uniqueKey).Nodup ∧
    (appCollagePlacements demoImages demoRs).countP
        (fun p => p.sourceImage.filename == demoImageA.filename) = 4 ∧
    (appCollagePlacements demoImages demoRs).countP
        (fun p => p.sourceImage.filename == demoImageB.filename) = 4 := by
  have h := collage_expansion_counts demoImages demoRs
    (fun n => ⟨by norm_num [demoRs], by norm_num [demoRs]⟩) (by decide)
  refine ⟨?_, h.2.1, ?_, ?_⟩
  · rw [h.1]
    rfl
  · exact h.2.2 demoImageA (List.mem_cons_self _ _)
  · exact h.2.2 demoImageB (by simp [demoImages])

/-- C3: every placement the pipeline generates, for every input list,
duplication factor and random source with draws in [0, 1), satisfies the
sampling ranges: x and y in [0, 100], rotation in [-30, 30], size in
[30, 80], opacity in [0.6, 1], and an integer z-index in [0, 9]. -/
theorem collage_placement_ranges (images : List ImageRecord) (k : ℕ) (rs : ℕ → ℚ)
    (hrs : ∀ n, 0 ≤ rs n ∧ rs n < 1) (p : Placement)
    (hp : p ∈ collagePlacements images k rs) :
    (0 ≤ p.x ∧ p.x ≤ 100) ∧ (0 ≤ p.y ∧ p.y ≤ 100) ∧
    (-30 ≤ p.rotationDeg ∧ p.rotationDeg ≤ 30) ∧
    (30 ≤ p.sizeVh ∧ p.sizeVh ≤ 80) ∧
    (0.6 ≤ p.opacity ∧ p.opacity ≤ 1) ∧
    (0 ≤ p.zIndex ∧ p.zIndex ≤ 9) := by
  unfold collagePlacements at hp
  simp only [List.mem_map] at hp
  obtain ⟨q, hq, rfl⟩ := hp
  exact mkPlacement_bounds q.2 q.1 _ (fun c => hrs _)

/-- Witness for C3: the first placement of the two-record scenario satisfies
all the sampling ranges. -/
theorem collage_placement_ranges_witness :
    (0 ≤ demoPlacement.x ∧ demoPlacement.x ≤ 100) ∧
    (0 ≤ demoPlacement.y ∧ demoPlacement.y ≤ 100) ∧
    (-30 ≤ demoPlacement.rotationDeg ∧ demoPlacement.rotationDeg ≤ 30) ∧
    (30 ≤ demoPlacement.sizeVh ∧ demoPlacement.sizeVh ≤ 80) ∧
    (0.6 ≤ demoPlacement.opacity ∧ demoPlacement.opacity ≤ 1) ∧
    (0 ≤ demoPlacement.zIndex ∧ demoPlacement.zIndex ≤ 9) := by
  have hlen : (collagePlacements demoImages 4 demoRs).length = 8 := by
    rw [collagePlacements_length]
    rfl
  have h0 : 0 < (collagePlacements demoImages 4 demoRs).length := by omega
  have hmem : demoPlacement ∈ collagePlacements demoImages 4 demoRs := by
    unfold demoPlacement
    rw [List.getD_eq_getElem _ _ h0]
    exact List.getElem_mem h0
  exact collage_placement_ranges demoImages 4 demoRs
    (fun n => ⟨by norm_num [demoRs], by norm_num [demoRs]⟩) demoPlacement hmem

/-- C8: the entry at position i of the shuffled placement list has animation
delay 1.5 * i seconds and duration 30 + 2 * i seconds, both strictly
increasing in the position, so no two entries share both values. -/
theorem collage_anim_stagger (images : List ImageRecord) (rs : ℕ → ℚ) (i j : ℕ)
    (hi : i < (appCollagePlacements images rs).length)
    (hj : j < (appCollagePlacements images rs).length) :
    ((appCollagePlacements images rs).get ⟨i, hi⟩).animationDelaySec = 1.5 * i ∧
    ((appCollagePlacements images rs).get ⟨i, hi⟩).animationDurationSec = 30 + 2 * i ∧
    (i < j →
      ((appCollagePlacements images rs).get ⟨i, hi⟩).animationDelaySec <
          ((appCollagePlacements images rs).get ⟨j, hj⟩).animationDelaySec ∧
        ((appCollagePlacements images rs).get ⟨i, hi⟩).animationDurationSec <
          ((appCollagePlacements images rs).get ⟨j, hj⟩).animationDurationSec) := by
  unfold appCollagePlacements at hi hj ⊢
  have hA := collagePlacements_anim images duplicationFactor rs i hi
  have hB := collagePlacements_anim images duplicationFactor rs j hj
  refine ⟨by rw [hA.1, mul_comm], by rw [hA.2, mul_comm], ?_⟩
  intro hij
  have hcast : (i : ℚ) < j := by exact_mod_cast hij
  constructor
  · rw [hA.1, hB.1]
    linarith
  · rw [hA.2, hB.2]
    linarith

/-- Witness for C8 at positions 1 and 2 of the two-record scenario: delay
1.5 seconds, duration 32 seconds at position 1, both below the values at
position 2. -/
theorem collage_anim_stagger_witness :
    demoPlacement1.animationDelaySec = 1.5 ∧
      demoPlacement1.animationDurationSec = 32 := by
  have hlen : (appCollagePlacements demoImages demoRs).length = 8 := by
    unfold appCollagePlacements duplicationFactor
    rw [collagePlacements_length]
    rfl
  have h1 : 1 < (appCollagePlacements demoImages demoRs).length := by omega
  have h2 : 2 < (appCollagePlacements demoImages demoRs).length := by omega
  have hC := collage_anim_stagger demoImages demoRs 1 2 h1 h2
  have hgd : demoPlacement1 = (appCollagePlacements demoImages demoRs).get ⟨1, h1⟩ := by
    unfold demoPlacement1
    rw [List.getD_eq_getElem _ _ h1]
    rfl
  rw [hgd]
  constructor
  · rw [hC.1]
    norm_num
  · rw [hC.2.1]
    norm_num

/-- C5: evaluation of the tracker lifecycle model. The claim that every
registered subscription is removed on destruction fails on the code: the
cleanup guards on `ref.current` at cleanup time, React has already detached
the ref when the passive-effect cleanup runs at unmount, so the final
`unobserve` is skipped and one observation stays active after any number of
re-renders; only the never-attached tracker ends clean (and its setup indeed
registers nothing, as a no-op). -/
theorem useInView_unmount_skips_unobserve :
    (∀ m : ℕ, trackerLifecycle true m = 1) ∧
      (∀ m : ℕ, trackerLifecycle false m = 0) := by
  constructor
  · intro m
    induction m with
    | zero => rfl
    | succ m ih =>
        unfold trackerLifecycle at ih ⊢
        simp only [Nat.rec_add_one] at ih ⊢
        simp_all [trackerEffectSetup, trackerEffectCleanup, trackerObserveCount]
  · intro m
    induction m with
    | zero => rfl
    | succ m ih =>
        unfold trackerLifecycle at ih ⊢
        simp only [Nat.rec_add_one] at ih ⊢
        simp_all [trackerEffectSetup, trackerEffectCleanup, trackerObserveCount]

/-- C6: a load failure of the collage instance at position i substitutes the
collage placeholder as that instance's displayed source, removes nothing,
leaves the placement list untouched and every other instance unchanged; a
narrative image failure likewise shows the narrative placeholder. -/
theorem image_failure_isolated (ps : List Placement) (i : ℕ) (hi : i < ps.length)
    (rec : ImageRecord) :
    (collageFailAt (renderCollage ps) i).placements = ps ∧
    (collageFailAt (renderCollage ps) i).elements.length = ps.length ∧
    ((collageFailAt (renderCollage ps) i).elements.getD i fallbackImgElement).src =
      collagePlaceholderUrl ∧
    (∀ j, j < ps.length → j ≠ i →
      (collageFailAt (renderCollage ps) i).elements.getD j fallbackImgElement =
        renderImg ((ps.getD j fallbackPlacement).sourceImage.imgUrl)) ∧
    (fireLoadError narrativePlaceholderUrl (renderImg rec.imgUrl)).src =
      narrativePlaceholderUrl := by
  have hlen : (renderCollage ps).elements.length = ps.length := by
    simp [renderCollage]
  have hi2 : i < (renderCollage ps).elements.length := by omega
  refine ⟨rfl, ?_, ?_, ?_, rfl⟩
  · simp [collageFailAt, List.length_set, hlen]
  · have hset : i < ((renderCollage ps).elements.set i
        (fireLoadError collagePlaceholderUrl
          ((renderCollage ps).elements.getD i fallbackImgElement))).length := by
      simp [List.length_set]
      omega
    have hmapi : i < (ps.map (fun p => renderImg p.sourceImage.imgUrl)).length := by
      simpa using hi
    have hE : (renderCollage ps).elements[i] =
        renderImg ((ps.getD i fallbackPlacement).sourceImage.imgUrl) := by
      show (ps.map (fun p => renderImg p.sourceImage.imgUrl))[i] = _
      rw [List.getElem_map, List.getD_eq_getElem _ _ hi]
    simp only [collageFailAt]
    rw [List.getD_eq_getElem _ _ hset, List.getElem_set, if_pos rfl,
      List.getD_eq_getElem _ _ hi2, hE]
    rfl
  · intro j hjlen hne
    have hset : j < ((renderCollage ps).elements.set i
        (fireLoadError collagePlaceholderUrl
          ((renderCollage ps).elements.getD i fallbackImgElement))).length := by
      simp [List.length_set]
      omega
    have hj2 : j < (renderCollage ps).elements.length := by omega
    have hmapj : j < (ps.map (fun p => renderImg p.sourceImage.imgUrl)).length := by
      simpa using hjlen
    simp only [collageFailAt]
    rw [List.getD_eq_getElem _ _ hset, List.getElem_set, if_neg (fun hx => hne hx.symm)]
    show (ps.map (fun p => renderImg p.sourceImage.imgUrl))[j] = _
    rw [List.getElem_map, List.getD_eq_getElem _ _ hjlen]

/-- Witness for C6: failing instance 0 of a two-placement view shows the
collage placeholder there, keeps the placement list and instance 1
unchanged, and a narrative failure shows the narrative placeholder. -/
theorem image_failure_isolated_witness :
    (collageFailAt (renderCollage demoViewPlacements) 0).placements =
        demoViewPlacements ∧
    ((collageFailAt (renderCollage demoViewPlacements) 0).elements.getD 0
        fallbackImgElement).src = collagePlaceholderUrl ∧
    (collageFailAt (renderCollage demoViewPlacements) 0).elements.getD 1
        fallbackImgElement =
      renderImg ((demoViewPlacements.getD 1 fallbackPlacement).sourceImage.imgUrl) ∧
    (fireLoadError narrativePlaceholderUrl (renderImg demoImageA.imgUrl)).src =
      narrativePlaceholderUrl := by
  have h := image_failure_isolated demoViewPlacements 0 (by simp [demoViewPlacements])
    demoImageA
  exact ⟨h.1, h.2.2.1, h.2.2.2.1 1 (by simp [demoViewPlacements]) (by decide), h.2.2.2.2⟩
